import Mathlib

/-!
Shallow embedding of the Verbex Python SDK (`verbex_sdk.py`) and its
conformance test harness (`test_harness.py`), together with proofs about
the claims of the specification.

Python values that can appear in decoded JSON payloads are modelled by
the inductive type `JValue`; Python dicts are insertion-ordered
association lists with unique keys, and dict assignment (`d[k] = v`) is
modelled by `dictInsert`, which replaces in place when the key exists and
appends otherwise, exactly as CPython does.  Python truthiness (`if x:`,
`x or y`) is modelled by `truthy` / `pyOr`.
-/

/-- Model of a decoded JSON / Python value: `None`, booleans, numbers
(integral; no claim computes with floats), strings, lists and dicts. -/
inductive JValue where
  | null : JValue
  | bool : Bool → JValue
  | num : Int → JValue
  | str : String → JValue
  | arr : List JValue → JValue
  | obj : List (String × JValue) → JValue

/-- A Python dict as an insertion-ordered association list. -/
abbrev Dict := List (String × JValue)

/-- Membership test `k in d` on a Python dict. -/
def dictHas (d : Dict) (k : String) : Bool :=
  d.any (fun p => p.1 = k)

/-- Lookup `d.get(k)`: the stored value, or `None` when the key is absent. -/
def dget (d : Dict) (k : String) : JValue :=
  match d.find? (fun p => p.1 = k) with
  | some p => p.2
  | none => .null

/-- Lookup with default, `d.get(k, default)`. -/
def dgetD (d : Dict) (k : String) (default : JValue) : JValue :=
  match d.find? (fun p => p.1 = k) with
  | some p => p.2
  | none => default

/-- Dict assignment `d[k] = v`: replace in place when `k` is present
(CPython keeps the original position), append otherwise. -/
def dictInsert (k : String) (v : JValue) (d : Dict) : Dict :=
  if dictHas d k then
    d.map (fun p => if p.1 = k then (k, v) else p)
  else
    d ++ [(k, v)]

/-- Python truthiness of a value. -/
def truthy : JValue → Bool
  | .null => false
  | .bool b => b
  | .num n => n != 0
  | .str s => s != ""
  | .arr xs => !xs.isEmpty
  | .obj fs => !fs.isEmpty

/-- Python `a or b`. -/
def pyOr (a b : JValue) : JValue :=
  if truthy a then a else b

/-- Model of `key[0].lower() + key[1:] if key else key` from
`_to_camel_case_keys` (line 28 of `verbex_sdk.py`). -/
def lowerFirst (s : String) : String :=
  match s with
  | ⟨[]⟩ => ⟨[]⟩
  | ⟨c :: cs⟩ => ⟨c.toLower :: cs⟩

mutual

/-- Python `repr()` of a decoded JSON value (string escaping inside the
rendering is not modelled; no claim depends on it). -/
def pyRepr : JValue → String
  | .null => "None"
  | .bool true => "True"
  | .bool false => "False"
  | .num n => toString n
  | .str s => "\x27" ++ s ++ "\x27"
  | .arr xs => "[" ++ String.intercalate ", " (pyReprList xs) ++ "]"
  | .obj fs => "\x7b" ++ String.intercalate ", " (pyReprFields fs) ++ "\x7d"

/-- Renders each element of a list, for `pyRepr`. -/
def pyReprList : List JValue → List String
  | [] => []
  | x :: xs => pyRepr x :: pyReprList xs

/-- Renders each dict entry, for `pyRepr`. -/
def pyReprFields : Dict → List String
  | [] => []
  | (k, v) :: fs => ("\x27" ++ k ++ "\x27: " ++ pyRepr v) :: pyReprFields fs

end

/-- Python `str()` of a decoded JSON value: a string renders as itself,
anything else as its `repr`. -/
def pyStr : JValue → String
  | .str s => s
  | v => pyRepr v

/-- The convenience-alias step of `_to_camel_case_keys` (lines 31-33):
after key conversion, if `documentId` is a key and `id` is not, store
`str(result[documentId])` under `id`. -/
def aliasStep (r : Dict) : Dict :=
  if dictHas r "documentId" && !dictHas r "id" then
    dictInsert "id" (.str (pyStr (dget r "documentId"))) r
  else r

mutual

/-- Model of `_to_camel_case_keys` (lines 13-35 of `verbex_sdk.py`):
`None` maps to `None`, lists map elementwise, non-dict scalars are
returned unchanged, and a dict is rebuilt with each key's first character
lowercased and each value converted recursively, followed by `aliasStep`. -/
def toCamelCaseKeys : JValue → JValue
  | .null => .null
  | .bool b => .bool b
  | .num n => .num n
  | .str s => .str s
  | .arr xs => .arr (camelList xs)
  | .obj fs => .obj (aliasStep (camelFields [] fs))

/-- Elementwise conversion of a list, for `toCamelCaseKeys`. -/
def camelList : List JValue → List JValue
  | [] => []
  | x :: xs => toCamelCaseKeys x :: camelList xs

/-- The `for key, value in obj.items(): result[camel_key] = ...` loop of
`_to_camel_case_keys`, building the result dict left to right. -/
def camelFields : Dict → Dict → Dict
  | acc, [] => acc
  | acc, (k, v) :: rest =>
      camelFields (dictInsert (lowerFirst k) (toCamelCaseKeys v) acc) rest

end

/-- Membership of a key in a key list (same test as `dictHas`, on the
projected keys). -/
def keyMem (k : String) : List String → Bool
  | [] => false
  | a :: as => (a = k) || keyMem k as

/-- Pairwise distinctness of a key list. -/
def distinctKeys : List String → Bool
  | [] => true
  | a :: as => !keyMem a as && distinctKeys as

mutual

/-- Definition following the words of the specification (claim C6): a
structurally identical tree in which every mapping key has its first
character lowercased, applied recursively into nested mappings and every
sequence element, with scalars and ordering unchanged and no field added
or removed.  To be compared with `toCamelCaseKeys`, the definition taken
from the source. -/
def lowerKeysOnly : JValue → JValue
  | .null => .null
  | .bool b => .bool b
  | .num n => .num n
  | .str s => .str s
  | .arr xs => .arr (lowerKeysOnlyList xs)
  | .obj fs => .obj (lowerKeysOnlyFields fs)

/-- Elementwise `lowerKeysOnly` on a list. -/
def lowerKeysOnlyList : List JValue → List JValue
  | [] => []
  | x :: xs => lowerKeysOnly x :: lowerKeysOnlyList xs

/-- Entrywise `lowerKeysOnly` on a mapping, keys lowercased in place. -/
def lowerKeysOnlyFields : Dict → Dict
  | [] => []
  | (k, v) :: fs => (lowerFirst k, lowerKeysOnly v) :: lowerKeysOnlyFields fs

end

mutual

/-- Condition under which the amended claim C6 equates the normalizer with
the pure key-lowercasing transform: inside every mapping of the tree the
lowercased keys are pairwise distinct (no entries merge) and the
`documentId` convenience alias does not fire. -/
def benign : JValue → Bool
  | .null => true
  | .bool _ => true
  | .num _ => true
  | .str _ => true
  | .arr xs => benignList xs
  | .obj fs =>
      distinctKeys (fs.map (fun p => lowerFirst p.1)) &&
      !(keyMem "documentId" (fs.map (fun p => lowerFirst p.1)) &&
        !keyMem "id" (fs.map (fun p => lowerFirst p.1))) &&
      benignFields fs

/-- Elementwise `benign` on a list. -/
def benignList : List JValue → Bool
  | [] => true
  | x :: xs => benign x && benignList xs

/-- Valuewise `benign` on a mapping. -/
def benignFields : Dict → Bool
  | [] => true
  | (_, v) :: fs => benign v && benignFields fs

end

/-- Model of the `ApiResponse` dataclass (lines 38-49 of `verbex_sdk.py`).
Python does not enforce the annotated field types, so every field holds an
arbitrary decoded value; `data = .null` models Python `None`. -/
structure ApiResponse where
  guid : JValue
  success : JValue
  timestamp_utc : JValue
  status_code : JValue
  error_message : JValue
  data : JValue
  total_count : JValue
  processing_time_ms : JValue
  raw_response : Dict

/-- Model of `ApiResponse.from_dict` (lines 51-67 of `verbex_sdk.py`),
with Python `x or y` as `pyOr` and `d.get` as `dget` / `dgetD`. -/
def ApiResponse.from_dict (d : Dict) : ApiResponse :=
  let raw_data := pyOr (dget d "Data") (dget d "data")
  let converted_data := if truthy raw_data then toCamelCaseKeys raw_data else .null
  { guid := pyOr (dget d "Guid") (dget d "guid")
    success := pyOr (dget d "Success") (dgetD d "success" (.bool false))
    timestamp_utc := pyOr (dget d "TimestampUtc") (dget d "timestampUtc")
    status_code := pyOr (dget d "StatusCode") (dgetD d "statusCode" (.num 0))
    error_message := pyOr (dget d "ErrorMessage") (dget d "errorMessage")
    data := converted_data
    total_count := pyOr (dget d "TotalCount") (dget d "totalCount")
    processing_time_ms := pyOr (dget d "ProcessingTimeMs") (dget d "processingTimeMs")
    raw_response := d }

/-- Python `v >= bound` as evaluated on `api_response.status_code` at line
241 of `verbex_sdk.py`.  The comparison is only reached for falsy `success`
and in practice only with integer status codes; a non-integer value (which
would raise `TypeError` in Python) is modelled as not `>= bound`, and the
theorems that depend on the comparison hypothesize an integer status. -/
def statusGe (v : JValue) (bound : Int) : Bool :=
  match v with
  | .num n => bound ≤ n
  | _ => false

/-- Model of the `VerbexError` exception (lines 157-163 of
`verbex_sdk.py`): message, status code (default 0) and optional envelope.
The message and status code fields carry whatever Python value was passed. -/
structure VerbexErrorM where
  message : JValue
  status_code : JValue
  response : Option ApiResponse

/-- Outcome of one transport round trip as seen by `_make_request`:
either `requests` raised a `RequestException`, or a response arrived with
its `ok` flag, status code, JSON-decoded body (`none` when decoding
failed) and raw text. -/
inductive TransportResult where
  | exc : String → TransportResult
  | resp : Bool → Int → Option Dict → String → TransportResult

/-- The payload `_make_request` hands to `ApiResponse.from_dict` (lines
230-237 of `verbex_sdk.py`): the JSON-decoded body when decoding
succeeded, otherwise the synthesized fallback dict built from the
transport status (`data` is the raw text when non-empty, else `None`). -/
def decodedPayload (respOk : Bool) (status : Int) (body : Option Dict)
    (text : String) : Dict :=
  match body with
  | some d => d
  | none =>
      [("success", .bool respOk), ("statusCode", .num status),
       ("data", if text ≠ "" then .str text else .null)]

/-- The envelope stage of `_make_request` (lines 239-248 of
`verbex_sdk.py`): build the envelope from the payload and raise
`VerbexError` when `not api_response.success and
api_response.status_code >= 400`, else return the envelope. -/
def envelopeStage (d : Dict) : Except VerbexErrorM ApiResponse :=
  let r := ApiResponse.from_dict d
  if !truthy r.success && statusGe r.status_code 400 then
    .error ⟨pyOr r.error_message
        (.str ("Request failed with status " ++ pyStr r.status_code)),
      r.status_code, some r⟩
  else
    .ok r

/-- Model of `VerbexClient._make_request` (lines 218-251 of
`verbex_sdk.py`) after the HTTP verb dispatch: decode (or synthesize the
fallback payload), run the envelope stage, and wrap transport exceptions
(`requests.RequestException`) into `VerbexError` with status 0. -/
def makeRequest : TransportResult → Except VerbexErrorM ApiResponse
  | .exc msg => .error ⟨.str ("Request failed: " ++ msg), .num 0, none⟩
  | .resp respOk status body text =>
      envelopeStage (decodedPayload respOk status body text)

/-- Python `s or default` for an optional string argument (`None` and the
empty string are falsy). -/
def pyOrStr (s : Option String) (default : String) : String :=
  match s with
  | some s => if s = "" then default else s
  | none => s.getD default

/-- Request body built by `VerbexClient.create_index` (lines 360-375 of
`verbex_sdk.py`): the literal dict followed by the truthiness-guarded
`Labels` and `Tags` assignments. -/
def create_index_body (id : String) (name description repository_filename : Option String)
    (in_memory : Bool) (storage_mode : String)
    (enable_lemmatizer enable_stop_word_remover : Bool)
    (min_token_length max_token_length : Int)
    (labels : Option (List String)) (tags : Option (List (String × String))) : Dict :=
  let data : Dict :=
    [("Id", .str id),
     ("Name", .str (pyOrStr name id)),
     ("Description", .str (pyOrStr description "")),
     ("RepositoryFilename", .str (pyOrStr repository_filename (id ++ ".db"))),
     ("InMemory", .bool in_memory),
     ("StorageMode", .str storage_mode),
     ("EnableLemmatizer", .bool enable_lemmatizer),
     ("EnableStopWordRemover", .bool enable_stop_word_remover),
     ("MinTokenLength", .num min_token_length),
     ("MaxTokenLength", .num max_token_length)]
  let data :=
    match labels with
    | some l => if l.isEmpty then data else dictInsert "Labels" (.arr (l.map .str)) data
    | none => data
  match tags with
  | some t => if t.isEmpty then data
      else dictInsert "Tags" (.obj (t.map (fun p => (p.1, .str p.2)))) data
  | none => data

/-- Request body built by `VerbexClient.add_document` (lines 491-497 of
`verbex_sdk.py`): `Content` plus the truthiness-guarded `Id`, `Labels`
and `Tags` assignments. -/
def add_document_body (content : String) (document_id : Option String)
    (labels : Option (List String)) (tags : Option (List (String × String))) : Dict :=
  let data : Dict := [("Content", .str content)]
  let data :=
    match document_id with
    | some s => if s = "" then data else dictInsert "Id" (.str s) data
    | none => data
  let data :=
    match labels with
    | some l => if l.isEmpty then data else dictInsert "Labels" (.arr (l.map .str)) data
    | none => data
  match tags with
  | some t => if t.isEmpty then data
      else dictInsert "Tags" (.obj (t.map (fun p => (p.1, .str p.2)))) data
  | none => data

/-- Request body built by `VerbexClient.search` (lines 591-598 of
`verbex_sdk.py`): `Query` and `MaxResults` plus the
`if labels and len(labels) > 0` guarded filter assignments. -/
def search_body (query : String) (max_results : Int)
    (labels : Option (List String)) (tags : Option (List (String × String))) : Dict :=
  let data : Dict := [("Query", .str query), ("MaxResults", .num max_results)]
  let data :=
    match labels with
    | some l => if l.isEmpty then data else dictInsert "Labels" (.arr (l.map .str)) data
    | none => data
  match tags with
  | some t => if t.isEmpty then data
      else dictInsert "Tags" (.obj (t.map (fun p => (p.1, .str p.2)))) data
  | none => data

/-- How one harness scenario body finishes, as observed by
`TestHarness._run_test` (lines 64-83 of `test_harness.py`): normal
return, an `AssertionError`, or any other exception. -/
inductive TestOutcome where
  | pass : TestOutcome
  | assertFail : String → TestOutcome
  | unexpected : String → String → TestOutcome
deriving DecidableEq

/-- Whether a scenario outcome counts as a pass. -/
def TestOutcome.isPass : TestOutcome → Bool
  | .pass => true
  | _ => false

/-- Model of the `TestResult` record (lines 23-29 of `test_harness.py`,
elapsed time omitted). -/
structure TestResultM where
  name : String
  passed : Bool
  message : String

/-- Mutable counters and result list of `TestHarness`. -/
structure HarnessState where
  passed : Nat
  failed : Nat
  results : List TestResultM

/-- Model of `TestHarness._run_test`: every outcome is caught, exactly one
counter is incremented, and a result is appended; no outcome aborts the
run. -/
def runTest (st : HarnessState) (name : String) (out : TestOutcome) : HarnessState :=
  match out with
  | .pass => ⟨st.passed + 1, st.failed, st.results ++ [⟨name, true, ""⟩]⟩
  | .assertFail m => ⟨st.passed, st.failed + 1, st.results ++ [⟨name, false, m⟩]⟩
  | .unexpected ty m =>
      ⟨st.passed, st.failed + 1, st.results ++ [⟨name, false, ty ++ ": " ++ m⟩]⟩

/-- Model of the scenario loop of `TestHarness.run` (lines 618-673 of
`test_harness.py`): the scenarios are executed in order, each through
`_run_test`, starting from zeroed counters. -/
def runAll (scenarios : List (String × TestOutcome)) : HarnessState :=
  scenarios.foldl (fun st s => runTest st s.1 s.2) ⟨0, 0, []⟩

/-- Exit code of `TestHarness.run` (line 691): 0 when the failed counter
is zero, 1 otherwise. -/
def runExitCode (scenarios : List (String × TestOutcome)) : Nat :=
  if (runAll scenarios).failed = 0 then 0 else 1

/-- What `main` (lines 694-713 of `test_harness.py`) does, as a pair of
observations: whether the usage text was printed, and the exit status.
`argv` is `sys.argv`, whose head is the program name. -/
structure MainResult where
  printedUsage : Bool
  exitCode : Nat
deriving DecidableEq

/-- Model of `main`: with `len(sys.argv) != 3` it prints usage and
returns 1; otherwise it returns the harness run's exit code for the
scenario outcomes the run produces. -/
def mainEntry (argv : List String) (scenarios : List (String × TestOutcome)) : MainResult :=
  if argv.length ≠ 3 then ⟨true, 1⟩ else ⟨false, runExitCode scenarios⟩

/-- Fields of a mapping value (empty for non-mappings). -/
def objFields : JValue → Dict
  | .obj fs => fs
  | _ => []

/-- Whether a `_make_request` outcome returned normally (`.ok`) rather
than raising. -/
def returnsOk (r : Except VerbexErrorM ApiResponse) : Bool :=
  match r with
  | .ok _ => true
  | .error _ => false

/-- The two-step lookup strategy in the words of the specification's
design note and of the amended claim C4: take the value under the
canonical capitalized key whenever that value is truthy, otherwise the
value under the normalized lowercase key whenever that key is present,
otherwise the documented default.  To be compared with what
`ApiResponse.from_dict` computes. -/
def lookupField (d : Dict) (cap low : String) (default : JValue) : JValue :=
  if truthy (dget d cap) then dget d cap
  else if dictHas d low then dget d low
  else default

/-! ### Character and key lemmas -/

theorem char_toNat_ofNat_valid (m : Nat) (h : m.isValidChar) :
    (Char.ofNat m).toNat = m := by
  rw [Char.ofNat, dif_pos h]; rfl

theorem char_toLower_eq_of_upper (c : Char) (h : c.toNat ≥ 65 ∧ c.toNat ≤ 90) :
    c.toLower = Char.ofNat (c.toNat + 32) := by
  unfold Char.toLower
  rw [if_pos h]

theorem char_toLower_eq_of_not_upper (c : Char) (h : ¬(c.toNat ≥ 65 ∧ c.toNat ≤ 90)) :
    c.toLower = c := by
  unfold Char.toLower
  rw [if_neg h]

theorem char_toLower_idem (c : Char) : c.toLower.toLower = c.toLower := by
  by_cases h : c.toNat ≥ 65 ∧ c.toNat ≤ 90
  · rw [char_toLower_eq_of_upper c h]
    apply char_toLower_eq_of_not_upper
    rw [char_toNat_ofNat_valid (c.toNat + 32) (Or.inl (by omega))]
    omega
  · rw [char_toLower_eq_of_not_upper c h]
    exact char_toLower_eq_of_not_upper c h

theorem lowerFirst_idem (s : String) : lowerFirst (lowerFirst s) = lowerFirst s := by
  match s with
  | ⟨[]⟩ => rfl
  | ⟨c :: cs⟩ =>
      show String.mk (c.toLower.toLower :: cs) = String.mk (c.toLower :: cs)
      rw [char_toLower_idem]

/-! ### Dict lemmas -/

theorem keyMem_map_fst (d : Dict) (k : String) :
    keyMem k (d.map Prod.fst) = dictHas d k := by
  induction d with
  | nil => rfl
  | cons a rest ih => simp [keyMem, dictHas, List.any_cons] at *; rw [ih]

theorem keyMem_append (k : String) (as bs : List String) :
    keyMem k (as ++ bs) = (keyMem k as || keyMem k bs) := by
  induction as with
  | nil => rfl
  | cons a rest ih => simp [keyMem, ih, Bool.or_assoc]

theorem keyMem_of_mem (k : String) (ks : List String) (h : k ∈ ks) :
    keyMem k ks = true := by
  induction ks with
  | nil => cases h
  | cons a rest ih =>
      rcases List.mem_cons.mp h with h | h
      · simp [keyMem, h]
      · simp [keyMem, ih h]

theorem dictHas_cons_ne (a : String × JValue) (rest : Dict) (k : String)
    (h : ¬a.1 = k) : dictHas (a :: rest) k = dictHas rest k := by
  simp [dictHas, h]

theorem dget_cons_ne (a : String × JValue) (rest : Dict) (k : String)
    (h : ¬a.1 = k) : dget (a :: rest) k = dget rest k := by
  simp [dget, List.find?, h]

theorem dget_cons_eq (a : String × JValue) (rest : Dict) (k : String)
    (h : a.1 = k) : dget (a :: rest) k = a.2 := by
  simp [dget, List.find?, h]

theorem dget_of_not_has (d : Dict) (k : String) (h : dictHas d k = false) :
    dget d k = .null := by
  induction d with
  | nil => rfl
  | cons a rest ih =>
      have hne : ¬a.1 = k := by
        intro he
        simp [dictHas, he] at h
      rw [dget_cons_ne a rest k hne]
      exact ih (by rw [← dictHas_cons_ne a rest k hne]; exact h)

theorem dgetD_eq (d : Dict) (k : String) (v₀ : JValue) :
    dgetD d k v₀ = if dictHas d k then dget d k else v₀ := by
  induction d with
  | nil => rfl
  | cons a rest ih =>
      by_cases h : a.1 = k
      · simp [dgetD, dget, dictHas, List.find?, List.any_cons, h]
      · have e1 : dgetD (a :: rest) k v₀ = dgetD rest k v₀ := by
          simp [dgetD, List.find?, h]
        rw [e1, dictHas_cons_ne a rest k h, dget_cons_ne a rest k h]
        exact ih

theorem dictHas_append (d e : Dict) (k : String) :
    dictHas (d ++ e) k = (dictHas d k || dictHas e k) := by
  simp [dictHas, List.any_append]

theorem dget_append_of_not_has (d e : Dict) (k : String) (h : dictHas d k = false) :
    dget (d ++ e) k = dget e k := by
  induction d with
  | nil => rfl
  | cons a rest ih =>
      have hne : ¬a.1 = k := by
        intro he
        simp [dictHas, he] at h
      rw [List.cons_append, dget_cons_ne (a := a) _ k hne]
      exact ih (by rw [← dictHas_cons_ne a rest k hne]; exact h)

theorem dget_append_of_has (d e : Dict) (k : String) (h : dictHas d k = true) :
    dget (d ++ e) k = dget d k := by
  induction d with
  | nil => simp [dictHas] at h
  | cons a rest ih =>
      by_cases h1 : a.1 = k
      · rw [List.cons_append, dget_cons_eq (a := a) _ k h1, dget_cons_eq a rest k h1]
      · rw [List.cons_append, dget_cons_ne (a := a) _ k h1, dget_cons_ne a rest k h1]
        exact ih (by rw [← dictHas_cons_ne a rest k h1]; exact h)

theorem dget_singleton (k : String) (v : JValue) : dget [(k, v)] k = v := by
  simp [dget, List.find?]

theorem dictInsert_of_not_has (k : String) (v : JValue) (d : Dict)
    (h : dictHas d k = false) :
    dictInsert k v d = d ++ [(k, v)] := by
  unfold dictInsert
  rw [h]
  simp

theorem map_fst_replace (k : String) (v : JValue) (d : Dict) :
    (d.map (fun p => if p.1 = k then (k, v) else p)).map Prod.fst = d.map Prod.fst := by
  induction d with
  | nil => rfl
  | cons a rest ih =>
      by_cases h : a.1 = k
      · simp [h, ih]
      · simp [h, ih]

theorem map_fst_dictInsert (k : String) (v : JValue) (d : Dict) :
    (dictInsert k v d).map Prod.fst =
      if dictHas d k then d.map Prod.fst else d.map Prod.fst ++ [k] := by
  unfold dictInsert
  by_cases h : dictHas d k = true
  · rw [if_pos h, if_pos h, map_fst_replace]
  · rw [if_neg h, if_neg h]
    simp

theorem mem_dictInsert (k : String) (v : JValue) (d : Dict) (p : String × JValue)
    (h : p ∈ dictInsert k v d) : p ∈ d ∨ p = (k, v) := by
  unfold dictInsert at h
  by_cases hc : dictHas d k = true
  · rw [if_pos hc] at h
    rcases List.mem_map.mp h with ⟨q, hq, hqe⟩
    by_cases hqk : q.1 = k
    · right
      rw [if_pos hqk] at hqe
      exact hqe.symm
    · left
      rw [if_neg hqk] at hqe
      exact hqe ▸ hq
  · rw [if_neg hc] at h
    rcases List.mem_append.mp h with h | h
    · left; exact h
    · right; simpa using h

theorem distinctKeys_append_singleton (ks : List String) (k : String)
    (h : distinctKeys ks = true) (hm : keyMem k ks = false) :
    distinctKeys (ks ++ [k]) = true := by
  induction ks with
  | nil => rfl
  | cons a rest ih =>
      simp only [distinctKeys, Bool.and_eq_true, Bool.not_eq_true'] at h
      simp only [keyMem, Bool.or_eq_false_iff, decide_eq_false_iff_not] at hm
      have hk : keyMem a (rest ++ [k]) = false := by
        rw [keyMem_append, h.1]
        simp only [keyMem, Bool.or_false, Bool.false_or, decide_eq_false_iff_not]
        exact fun he => hm.1 he.symm
      show (!keyMem a (rest ++ [k]) && distinctKeys (rest ++ [k])) = true
      rw [hk, ih h.2 hm.2]
      rfl

theorem distinct_map_fst_dictInsert (k : String) (v : JValue) (d : Dict)
    (h : distinctKeys (d.map Prod.fst) = true) :
    distinctKeys ((dictInsert k v d).map Prod.fst) = true := by
  rw [map_fst_dictInsert]
  by_cases hc : dictHas d k = true
  · rw [if_pos hc]; exact h
  · rw [if_neg hc]
    apply distinctKeys_append_singleton _ _ h
    rw [keyMem_map_fst]
    exact Bool.not_eq_true _ ▸ hc

theorem distinct_camelFields (fs : Dict) (acc : Dict)
    (h : distinctKeys (acc.map Prod.fst) = true) :
    distinctKeys ((camelFields acc fs).map Prod.fst) = true := by
  induction fs generalizing acc with
  | nil => exact h
  | cons a rest ih =>
      obtain ⟨k, v⟩ := a
      simp only [camelFields]
      exact ih _ (distinct_map_fst_dictInsert _ _ _ h)

theorem mem_camelFields (fs : Dict) (acc : Dict) (p : String × JValue)
    (h : p ∈ camelFields acc fs) :
    p ∈ acc ∨ ∃ q ∈ fs, p = (lowerFirst q.1, toCamelCaseKeys q.2) := by
  induction fs generalizing acc with
  | nil => left; exact h
  | cons a rest ih =>
      obtain ⟨k, v⟩ := a
      simp only [camelFields] at h
      rcases ih _ h with h1 | ⟨q, hq, he⟩
      · rcases mem_dictInsert _ _ _ _ h1 with h2 | h2
        · left; exact h2
        · right
          exact ⟨(k, v), by simp, by simpa using h2⟩
      · right
        exact ⟨q, List.mem_cons_of_mem _ hq, he⟩

theorem camelFields_eq_append (fs : Dict) (acc : Dict)
    (hnd : distinctKeys (fs.map (fun p => lowerFirst p.1)) = true)
    (hdis : ∀ p ∈ fs, dictHas acc (lowerFirst p.1) = false) :
    camelFields acc fs = acc ++ fs.map (fun p => (lowerFirst p.1, toCamelCaseKeys p.2)) := by
  induction fs generalizing acc with
  | nil => simp [camelFields]
  | cons a rest ih =>
      obtain ⟨k, v⟩ := a
      simp only [camelFields]
      rw [dictInsert_of_not_has _ _ _ (hdis (k, v) (by simp))]
      simp only [distinctKeys, List.map_cons, Bool.and_eq_true, Bool.not_eq_true'] at hnd
      rw [ih (acc ++ [(lowerFirst k, toCamelCaseKeys v)]) hnd.2 ?_]
      · simp
      · intro p hp
        rw [dictHas_append]
        have h1 := hdis p (List.mem_cons_of_mem _ hp)
        have h2 : dictHas [(lowerFirst k, toCamelCaseKeys v)] (lowerFirst p.1) = false := by
          simp only [dictHas, List.any_cons, List.any_nil, Bool.or_false]
          simp only [decide_eq_false_iff_not]
          intro he
          have : keyMem (lowerFirst k) (rest.map (fun p => lowerFirst p.1)) = true := by
            apply keyMem_of_mem
            rw [he]
            exact List.mem_map.mpr ⟨p, hp, rfl⟩
          rw [this] at hnd
          exact absurd hnd.1 (by simp)
        rw [h1, h2]
        rfl

/-! ### Normalizer lemmas -/

theorem sizeOf_mem_arr (xs : List JValue) (x : JValue) (h : x ∈ xs) :
    sizeOf x < sizeOf (JValue.arr xs) := by
  induction xs with
  | nil => cases h
  | cons a rest ih =>
      rcases List.mem_cons.mp h with h | h
      · subst h
        simp
        omega
      · have := ih h
        simp at *
        omega

theorem sizeOf_mem_obj (fs : Dict) (p : String × JValue) (h : p ∈ fs) :
    sizeOf p.2 < sizeOf (JValue.obj fs) := by
  induction fs with
  | nil => cases h
  | cons a rest ih =>
      obtain ⟨k, v⟩ := a
      rcases List.mem_cons.mp h with h | h
      · subst h
        simp
        omega
      · have := ih h
        simp at *
        omega

theorem list_map_eq_self {α : Type} (l : List α) (f : α → α) (h : ∀ a ∈ l, f a = a) :
    l.map f = l := by
  induction l with
  | nil => rfl
  | cons a rest ih =>
      simp only [List.map_cons]
      rw [h a (by simp), ih (fun b hb => h b (by simp [hb]))]

theorem camelList_idem_of (xs : List JValue)
    (H : ∀ x ∈ xs, toCamelCaseKeys (toCamelCaseKeys x) = toCamelCaseKeys x) :
    camelList (camelList xs) = camelList xs := by
  induction xs with
  | nil => rfl
  | cons x rest ih =>
      simp only [camelList]
      rw [H x (by simp), ih (fun y hy => H y (by simp [hy]))]

theorem camelFields_fixed (d : Dict)
    (hk : ∀ p ∈ d, lowerFirst p.1 = p.1)
    (hv : ∀ p ∈ d, toCamelCaseKeys p.2 = p.2)
    (hd : distinctKeys (d.map Prod.fst) = true) :
    camelFields [] d = d := by
  have hmapkeys : d.map (fun p => lowerFirst p.1) = d.map Prod.fst := by
    induction d with
    | nil => rfl
    | cons a rest ih =>
        simp only [List.map_cons]
        rw [hk a (by simp), ih (fun p hp => hk p (by simp [hp]))
          (fun p hp => hv p (by simp [hp])) ?_]
        have hd2 := hd
        simp only [List.map_cons, distinctKeys, Bool.and_eq_true] at hd2
        exact hd2.2
  rw [camelFields_eq_append d [] (by rw [hmapkeys]; exact hd) (fun p hp => rfl)]
  rw [List.nil_append]
  apply list_map_eq_self
  intro p hp
  rw [hk p hp, hv p hp]

theorem aliasStep_cond_false (r : Dict)
    (h : (dictHas r "documentId" && !dictHas r "id") = false) :
    aliasStep r = r := by
  simp [aliasStep, h]

theorem aliasStep_of_has_id (r : Dict) (h : dictHas r "id" = true) :
    aliasStep r = r := by
  apply aliasStep_cond_false
  rw [h]
  simp

theorem toCamel_idem_bounded :
    ∀ (n : Nat) (v : JValue), sizeOf v ≤ n →
      toCamelCaseKeys (toCamelCaseKeys v) = toCamelCaseKeys v := by
  intro n
  induction n with
  | zero =>
      intro v hv
      exfalso
      cases v <;> simp at hv
  | succ n ih =>
      intro v hv
      cases v with
      | null => rfl
      | bool b => rfl
      | num m => rfl
      | str s => rfl
      | arr xs =>
          have H : ∀ x ∈ xs, toCamelCaseKeys (toCamelCaseKeys x) = toCamelCaseKeys x := by
            intro x hx
            apply ih
            have h1 := sizeOf_mem_arr xs x hx
            omega
          simp only [toCamelCaseKeys]
          rw [camelList_idem_of xs H]
      | obj fs =>
          have H : ∀ p ∈ fs, toCamelCaseKeys (toCamelCaseKeys p.2) = toCamelCaseKeys p.2 := by
            intro p hp
            apply ih
            have h1 := sizeOf_mem_obj fs p hp
            omega
          have hrmem : ∀ p ∈ camelFields [] fs,
              lowerFirst p.1 = p.1 ∧ toCamelCaseKeys p.2 = p.2 := by
            intro p hp
            rcases mem_camelFields fs [] p hp with h0 | ⟨q, hq, he⟩
            · cases h0
            · subst he
              exact ⟨lowerFirst_idem q.1, H q hq⟩
          have hrdist : distinctKeys ((camelFields [] fs).map Prod.fst) = true :=
            distinct_camelFields fs [] rfl
          have hRmem : ∀ p ∈ aliasStep (camelFields [] fs),
              lowerFirst p.1 = p.1 ∧ toCamelCaseKeys p.2 = p.2 := by
            intro p hp
            unfold aliasStep at hp
            by_cases hc : (dictHas (camelFields [] fs) "documentId" &&
                !dictHas (camelFields [] fs) "id") = true
            · rw [if_pos hc] at hp
              have hcid : dictHas (camelFields [] fs) "id" = false := by
                simp only [Bool.and_eq_true, Bool.not_eq_true'] at hc
                exact hc.2
              rw [dictInsert_of_not_has _ _ _ hcid] at hp
              rcases List.mem_append.mp hp with h1 | h1
              · exact hrmem p h1
              · have hpe : p = ("id",
                    JValue.str (pyStr (dget (camelFields [] fs) "documentId"))) := by
                  simpa using h1
                subst hpe
                exact ⟨rfl, rfl⟩
            · rw [if_neg hc] at hp
              exact hrmem p hp
          have hRdist : distinctKeys ((aliasStep (camelFields [] fs)).map Prod.fst) = true := by
            unfold aliasStep
            by_cases hc : (dictHas (camelFields [] fs) "documentId" &&
                !dictHas (camelFields [] fs) "id") = true
            · rw [if_pos hc]
              have hcid : dictHas (camelFields [] fs) "id" = false := by
                simp only [Bool.and_eq_true, Bool.not_eq_true'] at hc
                exact hc.2
              rw [dictInsert_of_not_has _ _ _ hcid, List.map_append]
              apply distinctKeys_append_singleton _ _ hrdist
              rw [keyMem_map_fst]
              exact hcid
            · rw [if_neg hc]
              exact hrdist
          have hfix : camelFields [] (aliasStep (camelFields [] fs)) =
              aliasStep (camelFields [] fs) :=
            camelFields_fixed _ (fun p hp => (hRmem p hp).1)
              (fun p hp => (hRmem p hp).2) hRdist
          simp only [toCamelCaseKeys]
          rw [hfix]
          by_cases hc : (dictHas (camelFields [] fs) "documentId" &&
              !dictHas (camelFields [] fs) "id") = true
          · have hidR : dictHas (aliasStep (camelFields [] fs)) "id" = true := by
              unfold aliasStep
              rw [if_pos hc]
              have hcid : dictHas (camelFields [] fs) "id" = false := by
                simp only [Bool.and_eq_true, Bool.not_eq_true'] at hc
                exact hc.2
              rw [dictInsert_of_not_has _ _ _ hcid, dictHas_append]
              simp [dictHas]
            exact congrArg JValue.obj (aliasStep_of_has_id _ hidR)
          · have hRr : aliasStep (camelFields [] fs) = camelFields [] fs :=
              aliasStep_cond_false _ (by simpa using hc)
            rw [hRr]
            exact congrArg JValue.obj (aliasStep_cond_false _ (by simpa using hc))

theorem list_map_congr {α β : Type} (l : List α) (f g : α → β)
    (h : ∀ a ∈ l, f a = g a) : l.map f = l.map g := by
  induction l with
  | nil => rfl
  | cons a rest ih =>
      simp only [List.map_cons]
      rw [h a (by simp), ih (fun b hb => h b (by simp [hb]))]

theorem benignList_mem (xs : List JValue) (h : benignList xs = true) :
    ∀ x ∈ xs, benign x = true := by
  induction xs with
  | nil => intro x hx; cases hx
  | cons a rest ih =>
      simp only [benignList, Bool.and_eq_true] at h
      intro x hx
      rcases List.mem_cons.mp hx with hx | hx
      · subst hx; exact h.1
      · exact ih h.2 x hx

theorem benignFields_mem (fs : Dict) (h : benignFields fs = true) :
    ∀ p ∈ fs, benign p.2 = true := by
  induction fs with
  | nil => intro p hp; cases hp
  | cons a rest ih =>
      obtain ⟨k, v⟩ := a
      simp only [benignFields, Bool.and_eq_true] at h
      intro p hp
      rcases List.mem_cons.mp hp with hp | hp
      · subst hp; exact h.1
      · exact ih h.2 p hp

theorem camelList_eq_lowerList (xs : List JValue)
    (h : ∀ x ∈ xs, toCamelCaseKeys x = lowerKeysOnly x) :
    camelList xs = lowerKeysOnlyList xs := by
  induction xs with
  | nil => rfl
  | cons a rest ih =>
      simp only [camelList, lowerKeysOnlyList]
      rw [h a (by simp), ih (fun x hx => h x (by simp [hx]))]

theorem lowerKeysOnlyFields_eq_map (fs : Dict) :
    lowerKeysOnlyFields fs = fs.map (fun p => (lowerFirst p.1, lowerKeysOnly p.2)) := by
  induction fs with
  | nil => rfl
  | cons a rest ih =>
      obtain ⟨k, v⟩ := a
      simp only [lowerKeysOnlyFields, List.map_cons]
      rw [ih]

theorem toCamel_eq_lower_bounded :
    ∀ (n : Nat) (v : JValue), sizeOf v ≤ n → benign v = true →
      toCamelCaseKeys v = lowerKeysOnly v := by
  intro n
  induction n with
  | zero =>
      intro v hv
      exfalso
      cases v <;> simp at hv
  | succ n ih =>
      intro v hv hb
      cases v with
      | null => rfl
      | bool b => rfl
      | num m => rfl
      | str s => rfl
      | arr xs =>
          have hbs := benignList_mem xs (by simpa [benign] using hb)
          have H : ∀ x ∈ xs, toCamelCaseKeys x = lowerKeysOnly x := by
            intro x hx
            have h1 := sizeOf_mem_arr xs x hx
            exact ih x (by omega) (hbs x hx)
          simp only [toCamelCaseKeys, lowerKeysOnly]
          rw [camelList_eq_lowerList xs H]
      | obj fs =>
          simp only [benign, Bool.and_eq_true] at hb
          obtain ⟨⟨hdk, hna⟩, hbf⟩ := hb
          have hmap : camelFields [] fs =
              fs.map (fun p => (lowerFirst p.1, toCamelCaseKeys p.2)) := by
            rw [camelFields_eq_append fs [] hdk (fun p hp => rfl), List.nil_append]
          have hkeys : (camelFields [] fs).map Prod.fst =
              fs.map (fun p => lowerFirst p.1) := by
            rw [hmap, List.map_map]
            rfl
          have hcond : (dictHas (camelFields [] fs) "documentId" &&
              !dictHas (camelFields [] fs) "id") = false := by
            rw [← keyMem_map_fst, ← keyMem_map_fst, hkeys]
            exact (Bool.not_eq_true' _) ▸ hna
          simp only [toCamelCaseKeys, lowerKeysOnly]
          rw [aliasStep_cond_false _ hcond, hmap, lowerKeysOnlyFields_eq_map]
          apply congrArg JValue.obj
          apply list_map_congr
          intro p hp
          have hps := sizeOf_mem_obj fs p hp
          rw [ih p.2 (by omega) (benignFields_mem fs hbf p hp)]

/-! ### Envelope and harness lemmas -/

theorem toCamel_ne_null (v : JValue) (h : ¬v = .null) :
    ¬toCamelCaseKeys v = .null := by
  cases v with
  | null => exact absurd rfl h
  | bool b => simp [toCamelCaseKeys]
  | num m => simp [toCamelCaseKeys]
  | str s => simp [toCamelCaseKeys]
  | arr xs => simp [toCamelCaseKeys]
  | obj fs => simp [toCamelCaseKeys]

theorem truthy_null_false (v : JValue) (h : v = .null) : truthy v = false := by
  subst h; rfl

theorem dget_eq_ite (d : Dict) (k : String) :
    dget d k = if dictHas d k then dget d k else .null := by
  by_cases h : dictHas d k = true
  · rw [if_pos h]
  · rw [if_neg h]
    exact dget_of_not_has d k (by simpa using h)

theorem pyOr_dgetD_eq_lookup (d : Dict) (cap low : String) (v₀ : JValue) :
    pyOr (dget d cap) (dgetD d low v₀) = lookupField d cap low v₀ := by
  unfold pyOr lookupField
  rw [dgetD_eq]

theorem pyOr_dget_eq_lookup (d : Dict) (cap low : String) :
    pyOr (dget d cap) (dget d low) = lookupField d cap low .null := by
  unfold pyOr lookupField
  rw [← dget_eq_ite]

theorem runAll_foldl_counts (scenarios : List (String × TestOutcome)) (st : HarnessState) :
    (scenarios.foldl (fun st s => runTest st s.1 s.2) st).passed
        = st.passed + scenarios.countP (fun s => s.2.isPass) ∧
    (scenarios.foldl (fun st s => runTest st s.1 s.2) st).failed
        = st.failed + scenarios.countP (fun s => !s.2.isPass) ∧
    (scenarios.foldl (fun st s => runTest st s.1 s.2) st).results.length
        = st.results.length + scenarios.length := by
  induction scenarios generalizing st with
  | nil => simp
  | cons a rest ih =>
      obtain ⟨nm, out⟩ := a
      simp only [List.foldl_cons]
      rcases ih (runTest st nm out) with ⟨h1, h2, h3⟩
      refine ⟨?_, ?_, ?_⟩
      · rw [h1]
        cases out <;> simp_arith [runTest, TestOutcome.isPass, List.countP_cons]
      · rw [h2]
        cases out <;> simp_arith [runTest, TestOutcome.isPass, List.countP_cons]
      · rw [h3]
        cases out <;> simp_arith [runTest, List.countP_cons]

theorem countP_not_isPass_zero_iff (scenarios : List (String × TestOutcome)) :
    (scenarios.countP (fun s => !s.2.isPass) = 0) ↔
      scenarios.all (fun s => s.2.isPass) = true := by
  induction scenarios with
  | nil => simp
  | cons a rest ih =>
      by_cases hp : a.2.isPass = true
      · simp [List.countP_cons, List.all_cons, hp, ih]
      · simp [List.countP_cons, List.all_cons, hp, ih]

/-! ### Additional counting lemma for the harness -/

theorem countP_isPass_add (scenarios : List (String × TestOutcome)) :
    scenarios.countP (fun s => s.2.isPass) + scenarios.countP (fun s => !s.2.isPass)
      = scenarios.length := by
  induction scenarios with
  | nil => rfl
  | cons a rest ih =>
      by_cases hp : a.2.isPass = true
      · simp [List.countP_cons, hp]
        omega
      · simp only [Bool.not_eq_true] at hp
        simp [List.countP_cons, hp]
        omega

/-! ### Claims -/

/-- Claim C1, counterexample: `ApiResponse.from_dict` applied to the
payload `\x7b'Success': True, 'StatusCode': 500\x7d` yields an envelope whose
success flag is truthy while its status code is 500, which is `>= 400`;
the constructor itself therefore does not enforce the claimed invariant. -/
theorem claim_C1_counterexample :
    truthy (ApiResponse.from_dict
        [("Success", JValue.bool true), ("StatusCode", JValue.num 500)]).success = true ∧
    (ApiResponse.from_dict
        [("Success", JValue.bool true), ("StatusCode", JValue.num 500)]).status_code
      = JValue.num 500 ∧
    statusGe (ApiResponse.from_dict
        [("Success", JValue.bool true), ("StatusCode", JValue.num 500)]).status_code 400
      = true :=
  ⟨rfl, rfl, rfl⟩

/-- Claim C1 (amended): `from_dict` enforces no relation between `success`
and `statusCode`; instead, every envelope that `_make_request` returns
(rather than raises) satisfies the dual invariant: if its success flag is
falsy then its integer status code is below 400. -/
theorem envelopeStage_ok (d : Dict) (r : ApiResponse)
    (h : envelopeStage d = .ok r) :
    r = ApiResponse.from_dict d ∧
    (!truthy (ApiResponse.from_dict d).success &&
      statusGe (ApiResponse.from_dict d).status_code 400) = false := by
  unfold envelopeStage at h
  by_cases hc : (!truthy (ApiResponse.from_dict d).success &&
      statusGe (ApiResponse.from_dict d).status_code 400) = true
  · rw [if_pos hc] at h
    cases h
  · rw [if_neg hc] at h
    injection h with h1
    exact ⟨h1.symm, by simpa using hc⟩

theorem claim_C1_returned_envelope (tr : TransportResult) (r : ApiResponse) (n : Int)
    (hok : makeRequest tr = .ok r) (hn : r.status_code = JValue.num n)
    (hs : truthy r.success = false) : n < 400 := by
  cases tr with
  | exc msg => cases hok
  | resp respOk status body text =>
      have h := envelopeStage_ok _ r hok
      obtain ⟨hr, hcond⟩ := h
      rw [← hr, hs, hn] at hcond
      simp only [Bool.not_false, Bool.true_and, statusGe] at hcond
      simpa using hcond

/-- Witness for `claim_C1_returned_envelope` on the decoded payload
`\x7b'StatusCode': 200\x7d`. -/
theorem claim_C1_returned_envelope_witness :
    makeRequest (.resp true 200 (some [("StatusCode", JValue.num 200)]) "")
        = .ok (ApiResponse.from_dict [("StatusCode", JValue.num 200)]) ∧
    (ApiResponse.from_dict [("StatusCode", JValue.num 200)]).status_code
        = JValue.num 200 ∧
    truthy (ApiResponse.from_dict [("StatusCode", JValue.num 200)]).success = false ∧
    (200 : Int) < 400 :=
  ⟨rfl, rfl, rfl,
    claim_C1_returned_envelope
      (.resp true 200 (some [("StatusCode", JValue.num 200)]) "")
      (ApiResponse.from_dict [("StatusCode", JValue.num 200)]) 200 rfl rfl rfl⟩

/-- Claim C2, counterexample: on the decoded payload
`\x7b'Success': False, 'StatusCode': 200\x7d` the request helper returns the
envelope instead of raising, and that returned envelope's success flag is
falsy — so an operation can return an envelope whose success flag is
false. -/
theorem claim_C2_counterexample :
    returnsOk (makeRequest (.resp true 200
        (some [("Success", JValue.bool false), ("StatusCode", JValue.num 200)]) "")) = true ∧
    truthy (ApiResponse.from_dict
        [("Success", JValue.bool false), ("StatusCode", JValue.num 200)]).success = false :=
  ⟨rfl, rfl⟩

/-- Claim C2 (amended): for every decoded payload whose derived status
code is an integer (as every real server payload carries; on a falsy
success with a non-integer status Python's `>=` comparison itself would
raise `TypeError`, outside the modelled comparison), `_make_request`
raises exactly when the envelope's success flag is falsy and its status
code is at least 400; in every other case it returns that envelope, which
can carry a falsy success flag only when its status code is not
`>= 400`. -/
theorem claim_C2_raise_iff (respOk : Bool) (status : Int) (d : Dict) (text : String)
    (n : Int) (_hn : (ApiResponse.from_dict d).status_code = JValue.num n) :
    (returnsOk (makeRequest (.resp respOk status (some d) text))
        = (truthy (ApiResponse.from_dict d).success ||
           !statusGe (ApiResponse.from_dict d).status_code 400)) ∧
    (∀ r, makeRequest (.resp respOk status (some d) text) = .ok r →
        r = ApiResponse.from_dict d ∧
        (truthy r.success || !statusGe r.status_code 400) = true) := by
  constructor
  · cases hts : truthy (ApiResponse.from_dict d).success <;>
      cases hge : statusGe (ApiResponse.from_dict d).status_code 400 <;>
        simp [makeRequest, decodedPayload, envelopeStage, returnsOk, hts, hge]
  · intro r hr
    obtain ⟨h1, h2⟩ := envelopeStage_ok d r hr
    subst h1
    refine ⟨rfl, ?_⟩
    cases hts : truthy (ApiResponse.from_dict d).success <;>
      cases hge : statusGe (ApiResponse.from_dict d).status_code 400 <;>
        simp [hts, hge] at h2 ⊢

/-- Witness for `claim_C2_raise_iff` on the decoded payload
`\x7b'Success': True\x7d`, whose derived status code is the integer
default 0. -/
theorem claim_C2_raise_iff_witness :
    (ApiResponse.from_dict [("Success", JValue.bool true)]).status_code = JValue.num 0 ∧
    makeRequest (.resp true 200 (some [("Success", JValue.bool true)]) "")
        = .ok (ApiResponse.from_dict [("Success", JValue.bool true)]) ∧
    (ApiResponse.from_dict [("Success", JValue.bool true)]
        = ApiResponse.from_dict [("Success", JValue.bool true)] ∧
      (truthy (ApiResponse.from_dict [("Success", JValue.bool true)]).success ||
       !statusGe (ApiResponse.from_dict [("Success", JValue.bool true)]).status_code 400)
        = true) :=
  ⟨rfl, rfl,
    (claim_C2_raise_iff true 200 [("Success", JValue.bool true)] "" 0 rfl).2 _ rfl⟩

/-- Claim C3: wire normalization is idempotent — applying
`_to_camel_case_keys` twice yields the same value as applying it once,
for every tree of mappings, sequences and scalars. -/
theorem claim_C3_normalization_idempotent (v : JValue) :
    toCamelCaseKeys (toCamelCaseKeys v) = toCamelCaseKeys v :=
  toCamel_idem_bounded (sizeOf v) v (Nat.le_refl _)

/-- Claim C4, counterexample: in the payload
`\x7b'StatusCode': 0, 'statusCode': 500\x7d` the capitalized key is present
and holds 0, yet the envelope's status code is taken from the lowercase
key (500): the lookup prefers a *truthy* capitalized value, not a
*present* capitalized key. -/
theorem claim_C4_counterexample :
    dictHas [("StatusCode", JValue.num 0), ("statusCode", JValue.num 500)] "StatusCode"
      = true ∧
    dget [("StatusCode", JValue.num 0), ("statusCode", JValue.num 500)] "StatusCode"
      = JValue.num 0 ∧
    (ApiResponse.from_dict
        [("StatusCode", JValue.num 0), ("statusCode", JValue.num 500)]).status_code
      = JValue.num 500 :=
  ⟨rfl, rfl, rfl⟩

/-- Claim C4 (amended): every envelope field is produced by the two-step
truthiness lookup `lookupField`: the capitalized key's value whenever that
value is truthy, else the lowercase key's value whenever that key is
present, else the documented default (`success: false`, `statusCode: 0`,
others `None`); `data` additionally passes the selected value through the
normalizer when it is truthy. -/
theorem claim_C4_field_lookup (d : Dict) :
    (ApiResponse.from_dict d).guid = lookupField d "Guid" "guid" JValue.null ∧
    (ApiResponse.from_dict d).success = lookupField d "Success" "success" (JValue.bool false) ∧
    (ApiResponse.from_dict d).timestamp_utc
      = lookupField d "TimestampUtc" "timestampUtc" JValue.null ∧
    (ApiResponse.from_dict d).status_code
      = lookupField d "StatusCode" "statusCode" (JValue.num 0) ∧
    (ApiResponse.from_dict d).error_message
      = lookupField d "ErrorMessage" "errorMessage" JValue.null ∧
    (ApiResponse.from_dict d).total_count
      = lookupField d "TotalCount" "totalCount" JValue.null ∧
    (ApiResponse.from_dict d).processing_time_ms
      = lookupField d "ProcessingTimeMs" "processingTimeMs" JValue.null ∧
    (ApiResponse.from_dict d).data =
      (if truthy (lookupField d "Data" "data" JValue.null) then
        toCamelCaseKeys (lookupField d "Data" "data" JValue.null)
      else JValue.null) := by
  refine ⟨?_, ?_, ?_, ?_, ?_, ?_, ?_, ?_⟩
  · exact pyOr_dget_eq_lookup d "Guid" "guid"
  · exact pyOr_dgetD_eq_lookup d "Success" "success" (JValue.bool false)
  · exact pyOr_dget_eq_lookup d "TimestampUtc" "timestampUtc"
  · exact pyOr_dgetD_eq_lookup d "StatusCode" "statusCode" (JValue.num 0)
  · exact pyOr_dget_eq_lookup d "ErrorMessage" "errorMessage"
  · exact pyOr_dget_eq_lookup d "TotalCount" "totalCount"
  · exact pyOr_dget_eq_lookup d "ProcessingTimeMs" "processingTimeMs"
  · show (if truthy (pyOr (dget d "Data") (dget d "data")) then
        toCamelCaseKeys (pyOr (dget d "Data") (dget d "data")) else JValue.null) = _
    rw [pyOr_dget_eq_lookup d "Data" "data"]

/-- Claim C5, counterexample: the payload `\x7b'Data': []\x7d` carries a
payload value under the capitalized key, yet the envelope's `data` is
`None`, because the empty list is falsy: `data` can be `None` even when
the server did return a payload value. -/
theorem claim_C5_counterexample :
    dictHas [("Data", JValue.arr [])] "Data" = true ∧
    (ApiResponse.from_dict [("Data", JValue.arr [])]).data = JValue.null :=
  ⟨rfl, rfl⟩

/-- Claim C5 (amended): the envelope's `data` is `None` exactly when the
truthiness-selected raw payload value (`d.get('Data') or d.get('data')`)
is falsy; whenever that selected value is truthy, `data` is the Wire
Normalizer applied to it. -/
theorem claim_C5_data_null_iff (d : Dict) :
    ((ApiResponse.from_dict d).data = JValue.null ↔
      truthy (pyOr (dget d "Data") (dget d "data")) = false) ∧
    (truthy (pyOr (dget d "Data") (dget d "data")) = true →
      (ApiResponse.from_dict d).data
        = toCamelCaseKeys (pyOr (dget d "Data") (dget d "data"))) := by
  have hdata : (ApiResponse.from_dict d).data =
      (if truthy (pyOr (dget d "Data") (dget d "data")) then
        toCamelCaseKeys (pyOr (dget d "Data") (dget d "data")) else JValue.null) := rfl
  constructor
  · rw [hdata]
    by_cases h : truthy (pyOr (dget d "Data") (dget d "data")) = true
    · rw [if_pos h]
      constructor
      · intro hnull
        have hne : ¬pyOr (dget d "Data") (dget d "data") = JValue.null := by
          intro he
          rw [truthy_null_false _ he] at h
          cases h
        exact absurd hnull (toCamel_ne_null _ hne)
      · intro hf
        rw [hf] at h
        cases h
    · rw [if_neg h]
      simp only [Bool.not_eq_true] at h
      simp [h]
  · intro ht
    rw [hdata, if_pos ht]

/-- Witness for `claim_C5_data_null_iff` on the payload
`\x7b'Data': 7\x7d`. -/
theorem claim_C5_data_null_iff_witness :
    truthy (pyOr (dget [("Data", JValue.num 7)] "Data")
        (dget [("Data", JValue.num 7)] "data")) = true ∧
    (ApiResponse.from_dict [("Data", JValue.num 7)]).data
      = toCamelCaseKeys (pyOr (dget [("Data", JValue.num 7)] "Data")
          (dget [("Data", JValue.num 7)] "data")) :=
  ⟨rfl, (claim_C5_data_null_iff [("Data", JValue.num 7)]).2 rfl⟩

/-- Claim C6, counterexample: on the mapping
`\x7b'DocumentId': 1\x7d` the normalizer's output has two fields (the
derived `id` alias was added) while the structure-preserving
key-lowercasing transform described by the claim yields one field: the
output is not structurally identical to the input. -/
theorem claim_C6_counterexample :
    toCamelCaseKeys (JValue.obj [("DocumentId", JValue.num 1)])
        = JValue.obj [("documentId", JValue.num 1), ("id", JValue.str "1")] ∧
    lowerKeysOnly (JValue.obj [("DocumentId", JValue.num 1)])
        = JValue.obj [("documentId", JValue.num 1)] ∧
    (objFields (toCamelCaseKeys (JValue.obj [("DocumentId", JValue.num 1)]))).length = 2 ∧
    (objFields (lowerKeysOnly (JValue.obj [("DocumentId", JValue.num 1)]))).length = 1 :=
  ⟨rfl, rfl, rfl, rfl⟩

/-- Claim C6 (amended): on every tree whose mappings neither merge keys
under first-character lowercasing nor trigger the `documentId` alias
(`benign`), the normalizer is exactly the structure-preserving recursive
key-lowercasing transform; `None` maps to `None` unconditionally, and the
transform is a total function. -/
theorem claim_C6_normalizer_shape (v : JValue) (h : benign v = true) :
    toCamelCaseKeys v = lowerKeysOnly v ∧ toCamelCaseKeys JValue.null = JValue.null :=
  ⟨toCamel_eq_lower_bounded (sizeOf v) v (Nat.le_refl _) h, rfl⟩

/-- Witness for `claim_C6_normalizer_shape` on a nested benign tree. -/
theorem claim_C6_normalizer_shape_witness :
    benign (JValue.obj [("Foo", JValue.arr [JValue.num 3, JValue.obj [("Bar", JValue.str "X")]]),
        ("Baz", JValue.null)]) = true ∧
    (toCamelCaseKeys (JValue.obj [("Foo", JValue.arr [JValue.num 3, JValue.obj [("Bar", JValue.str "X")]]),
        ("Baz", JValue.null)])
      = lowerKeysOnly (JValue.obj [("Foo", JValue.arr [JValue.num 3, JValue.obj [("Bar", JValue.str "X")]]),
        ("Baz", JValue.null)]) ∧
     toCamelCaseKeys JValue.null = JValue.null) :=
  ⟨rfl,
    claim_C6_normalizer_shape
      (JValue.obj [("Foo", JValue.arr [JValue.num 3, JValue.obj [("Bar", JValue.str "X")]]),
        ("Baz", JValue.null)]) rfl⟩

/-- Claim C7: after key normalization of a mapping, the normalizer's
output has an `id` field exactly when the normalized mapping already had
one or had a `documentId` field; an already-present `id` is never
overwritten, and when `id` is absent but `documentId` is present the
added `id` holds the string form of the `documentId` value. -/
theorem claim_C7_document_id_alias (fs : Dict) :
    dictHas (objFields (toCamelCaseKeys (JValue.obj fs))) "id"
      = (dictHas (camelFields [] fs) "id" || dictHas (camelFields [] fs) "documentId") ∧
    dget (objFields (toCamelCaseKeys (JValue.obj fs))) "id"
      = (if dictHas (camelFields [] fs) "id" = true then dget (camelFields [] fs) "id"
         else if dictHas (camelFields [] fs) "documentId" = true then
           JValue.str (pyStr (dget (camelFields [] fs) "documentId"))
         else JValue.null) := by
  have hobj : objFields (toCamelCaseKeys (JValue.obj fs))
      = aliasStep (camelFields [] fs) := rfl
  rw [hobj]
  by_cases hid : dictHas (camelFields [] fs) "id" = true
  · rw [aliasStep_of_has_id _ hid]
    constructor
    · rw [hid]
      simp
    · rw [if_pos hid]
  · have hidf : dictHas (camelFields [] fs) "id" = false := by simpa using hid
    by_cases hdoc : dictHas (camelFields [] fs) "documentId" = true
    · have hstep : aliasStep (camelFields [] fs)
          = camelFields [] fs ++
            [("id", JValue.str (pyStr (dget (camelFields [] fs) "documentId")))] := by
        unfold aliasStep
        rw [hdoc, hidf]
        simp only [Bool.not_false, Bool.and_self, if_true]
        exact dictInsert_of_not_has _ _ _ hidf
      rw [hstep]
      constructor
      · rw [dictHas_append, hidf, hdoc]
        simp [dictHas]
      · rw [dget_append_of_not_has _ _ _ hidf, dget_singleton, if_neg hid, if_pos hdoc]
    · have hdocf : dictHas (camelFields [] fs) "documentId" = false := by simpa using hdoc
      rw [aliasStep_cond_false _ (by rw [hdocf]; rfl)]
      constructor
      · rw [hidf, hdocf]
        rfl
      · rw [if_neg hid, if_neg hdoc]
        exact dget_of_not_has _ _ hidf

/-- Claim C8: whenever the transport raises its own exception type
(`requests.RequestException`), `_make_request` raises `VerbexError` with
status code 0, a human-readable message built from the transport error,
and no envelope; the total model shows the raw transport exception never
reaches the caller. -/
theorem claim_C8_transport_failure (msg : String) :
    makeRequest (.exc msg)
      = .error ⟨JValue.str ("Request failed: " ++ msg), JValue.num 0, none⟩ :=
  rfl

/-- Claim C9: the harness `main` prints usage and exits 1 exactly when
`sys.argv` does not have exactly three entries (program name plus two
positional arguments); otherwise the run executes and records every
scenario regardless of failures, counts each scenario exactly once, and
exits 0 if and only if every scenario passed. -/
theorem claim_C9_harness_cli (argv : List String)
    (scenarios : List (String × TestOutcome)) :
    mainEntry argv scenarios =
      ⟨decide (argv.length ≠ 3),
       if argv.length ≠ 3 then 1
       else if scenarios.all (fun s => s.2.isPass) then 0 else 1⟩ ∧
    (runAll scenarios).results.length = scenarios.length ∧
    (runAll scenarios).passed + (runAll scenarios).failed = scenarios.length := by
  obtain ⟨hp, hf, hr⟩ := runAll_foldl_counts scenarios ⟨0, 0, []⟩
  refine ⟨?_, ?_, ?_⟩
  · unfold mainEntry
    by_cases h : argv.length ≠ 3
    · rw [if_pos h, if_pos h]
      simp [h]
    · rw [if_neg h, if_neg h]
      have hfail : (runAll scenarios).failed
          = scenarios.countP (fun s => !s.2.isPass) := by
        simpa using hf
      have hd : decide (argv.length ≠ 3) = false := decide_eq_false h
      rw [hd]
      refine congrArg (MainResult.mk false) ?_
      unfold runExitCode
      rw [hfail]
      by_cases hall : scenarios.all (fun s => s.2.isPass) = true
      · rw [if_pos ((countP_not_isPass_zero_iff scenarios).mpr hall), if_pos hall]
      · rw [if_neg ?_, if_neg hall]
        intro hz
        exact hall ((countP_not_isPass_zero_iff scenarios).mp hz)
  · simpa using hr
  · have h1 : (runAll scenarios).passed = scenarios.countP (fun s => s.2.isPass) := by
      simpa using hp
    have h2 : (runAll scenarios).failed = scenarios.countP (fun s => !s.2.isPass) := by
      simpa using hf
    rw [h1, h2]
    exact countP_isPass_add scenarios

/-- Claim C10: optional request parameters are truthiness-tested: in
`create_index` an empty-string name falls back to the index id and an
empty-string description to the empty default; in `add_document` an
empty-string document id is omitted from the body; and empty labels
lists or empty tags mappings are omitted from the `create_index` and
`add_document` bodies exactly as absent ones are. -/
theorem claim_C10_truthiness_optionals
    (id storage_mode content : String)
    (name description repository_filename : Option String)
    (in_memory enable_lemmatizer enable_stop_word_remover : Bool)
    (min_token_length max_token_length : Int)
    (labels : Option (List String)) (tags : Option (List (String × String)))
    (document_id : Option String) :
    dget (create_index_body id (some "") description repository_filename in_memory
        storage_mode enable_lemmatizer enable_stop_word_remover min_token_length
        max_token_length labels tags) "Name" = JValue.str id ∧
    dget (create_index_body id name (some "") repository_filename in_memory
        storage_mode enable_lemmatizer enable_stop_word_remover min_token_length
        max_token_length labels tags) "Description" = JValue.str "" ∧
    add_document_body content (some "") labels tags
      = add_document_body content none labels tags ∧
    create_index_body id name description repository_filename in_memory
        storage_mode enable_lemmatizer enable_stop_word_remover min_token_length
        max_token_length (some []) tags
      = create_index_body id name description repository_filename in_memory
          storage_mode enable_lemmatizer enable_stop_word_remover min_token_length
          max_token_length none tags ∧
    create_index_body id name description repository_filename in_memory
        storage_mode enable_lemmatizer enable_stop_word_remover min_token_length
        max_token_length labels (some [])
      = create_index_body id name description repository_filename in_memory
          storage_mode enable_lemmatizer enable_stop_word_remover min_token_length
          max_token_length labels none ∧
    add_document_body content document_id (some []) tags
      = add_document_body content document_id none tags ∧
    add_document_body content document_id labels (some [])
      = add_document_body content document_id labels none := by
  refine ⟨?_, ?_, rfl, rfl, rfl, rfl, rfl⟩
  · rcases labels with _ | l
    · rcases tags with _ | t
      · rfl
      · rcases t with _ | ⟨x, xs⟩ <;> rfl
    · rcases l with _ | ⟨y, ys⟩
      · rcases tags with _ | t
        · rfl
        · rcases t with _ | ⟨x, xs⟩ <;> rfl
      · rcases tags with _ | t
        · rfl
        · rcases t with _ | ⟨x, xs⟩ <;> rfl
  · rcases labels with _ | l
    · rcases tags with _ | t
      · rfl
      · rcases t with _ | ⟨x, xs⟩ <;> rfl
    · rcases l with _ | ⟨y, ys⟩
      · rcases tags with _ | t
        · rfl
        · rcases t with _ | ⟨x, xs⟩ <;> rfl
      · rcases tags with _ | t
        · rfl
        · rcases t with _ | ⟨x, xs⟩ <;> rfl
